import Mathlib

/-!
Verification of the options_trading pipeline (random_forrest_close_direction
notebook) against its specification.

The notebook operates on pandas DataFrames of daily OHLCV rows.  The shallow
embedding below models:
* a numeric column as a `List ℚ` (exact rationals in place of floats), with a
  cell read `xs[t]?` returning `none` past the end;
* a possibly-missing (NaN) cell as an `Option ℚ`;
* row positions as natural numbers, so an iloc slice is a list of row indices.

Degenerate floating-point cases (a zero denominator producing `inf`/`NaN`) are
modelled as documented on each definition; no claim below evaluates one.
-/

namespace OptionsTrading

/-! ## Target labeling (cell b2502536)

`df["tomorrow"] = df["close"].shift(-1)`
`df["target"] = (df["tomorrow"] > df["close"]).astype(int)` -/

/-- Column `df["close"].shift(-1)` read at row `t`: the close of the next row, missing at
the final row. -/
def tomorrowAt (close : List ℚ) (t : Nat) : Option ℚ := close[t + 1]?

/-- Column `(df["tomorrow"] > df["close"]).astype(int)` read at row `t`.  In pandas a
comparison against a missing (`NaN`) `tomorrow` evaluates to `False`, so the
final row receives the defined value `0`. -/
def targetAt (close : List ℚ) (t : Nat) : Nat :=
  match tomorrowAt close t, close[t]? with
  | some tm, some c => if c < tm then 1 else 0
  | _, _ => 0

/-- Row indices of the baseline evaluation split `test = df.iloc[-300:]`
(cell c02e59df) on an `n`-row frame: the last `min 300 n` rows. -/
def baselineTestIdx (n : Nat) : List Nat := List.range' (n - 300) (n - (n - 300))

/-! ## Walk-forward backtester (cell af77e5f9, `backtest` / `predict`)

`for i in range(start, data.shape[0], step):`
`    train = data.iloc[0:i].copy()`
`    test = data.iloc[i:(i+step)].copy()`
`    predictions = predict(train, test, predictors, model)`
`    all_predictions.append(predictions)`
`return pd.concat(all_predictions)`

The embedding tracks row indices: `predict` emits one prediction per test row,
indexed by the original indices of the test rows, so the contribution of a fold to the
output is exactly its test slice of row indices. -/

/-- Number of iterations of `range(start, n, step)` for `step ≥ 1`. -/
def numFolds (n start step : Nat) : Nat := (n - start + step - 1) / step

/-- The Python iterator `range(start, n, step)` (for `step ≥ 1`): the fold
boundaries `start, start + step, ...` that are `< n`. -/
def foldStarts (n start step : Nat) : List Nat :=
  (List.range (numFolds n start step)).map (fun k => start + k * step)

/-- Row indices of `data.iloc[0:i]` on an `n`-row frame (Python slices clamp
to the frame length). -/
def trainSlice (n i : Nat) : List Nat := List.range (min i n)

/-- Row indices of `data.iloc[i:(i+step)]` on an `n`-row frame: the clamped
half-open range `[min i n, min (i+step) n)`. -/
def testSlice (n step i : Nat) : List Nat :=
  List.range' (min i n) (min (i + step) n - min i n)

/-- Model of `pd.concat` over a list of per-fold index blocks: concatenation, except
that pandas raises `ValueError` on an empty list, modelled as `none`. -/
def pdConcat (l : List (List Nat)) : Option (List Nat) :=
  if l.isEmpty then none else some l.flatten

/-- The row indices carried by `backtest(data, model, predictors, start, step)`
on an `n`-row frame, fold by fold, concatenated. -/
def backtest (n start step : Nat) : Option (List Nat) :=
  pdConcat ((foldStarts n start step).map (testSlice n step))

/-! ## Technical feature deriver (cell af77e5f9, `create_ohlc_features`)

Rolling windows use the pandas defaults: a window of size `h` ending at the
current row inclusive, with `min_periods = h`, so the result is missing until
the window is full and whenever the window contains a missing value. -/

/-- Series `s.shift(1)` read at row `t`: the value of the previous row, missing at row 0. -/
def shiftOneAt (s : List ℚ) (t : Nat) : Option ℚ :=
  if t = 0 then none else s[t - 1]?

/-- Sum of a list of possibly-missing cells; missing as soon as one cell is
missing (pandas `min_periods = h` over an `h`-cell window). -/
def optSum : List (Option ℚ) → Option ℚ
  | [] => some 0
  | a :: l =>
    match a, optSum l with
    | some x, some y => some (x + y)
    | _, _ => none

/-- The `h` cells of the rolling window ending at row `t` of the series `s`. -/
def windowCells (s : Nat → Option ℚ) (h t : Nat) : List (Option ℚ) :=
  (List.range h).map (fun j => s (t + 1 - h + j))

/-- Model of `rolling(h).sum()` of an `Option`-valued series at row `t`: missing while
the window extends before row 0 and when some cell in the window is missing. -/
def rollingSumAt (s : Nat → Option ℚ) (h t : Nat) : Option ℚ :=
  if t + 1 < h then none else optSum (windowCells s h t)

/-- Column `df["Trend_h"] = df["target"].shift(1).rolling(h).sum()` read at row `t`. -/
def trendAt (target : List ℚ) (h t : Nat) : Option ℚ :=
  rollingSumAt (shiftOneAt target) h t

/-- Column `df["close"].diff()` read at row `t`: `close[t] - close[t-1]`, missing at
row 0. -/
def diffAt (close : List ℚ) (t : Nat) : Option ℚ :=
  if t = 0 then none
  else
    match close[t]?, close[t - 1]? with
    | some a, some b => some (a - b)
    | _, _ => none

/-- Series `delta.where(delta > 0, 0)` read at row `t`: positive deltas kept, all
others replaced by 0.  The missing row-0 delta compares `False` in pandas, so
it too is replaced by 0. -/
def gainAt (close : List ℚ) (t : Nat) : ℚ :=
  match diffAt close t with
  | some d => if 0 < d then d else 0
  | none => 0

/-- Series `(-delta.where(delta < 0, 0))` read at row `t`: negated negative deltas,
all others (including the missing row-0 delta) 0. -/
def lossAt (close : List ℚ) (t : Nat) : ℚ :=
  match diffAt close t with
  | some d => if d < 0 then -d else 0
  | none => 0

/-- Series `gain.rolling(h).mean()` at row `t` of an `n`-row frame: defined once the
window is full and the row exists (`h ≤ t + 1 ≤ n`); pandas rejects a window
of size 0, modelled as missing. -/
def rollingGainMean (close : List ℚ) (h t : Nat) : Option ℚ :=
  if 1 ≤ h ∧ t < close.length ∧ h ≤ t + 1 then
    some (((List.range h).map (fun j => gainAt close (t + 1 - h + j))).sum / h)
  else none

/-- Series `loss.rolling(h).mean()` at row `t`, same shape as `rollingGainMean`. -/
def rollingLossMean (close : List ℚ) (h t : Nat) : Option ℚ :=
  if 1 ≤ h ∧ t < close.length ∧ h ≤ t + 1 then
    some (((List.range h).map (fun j => lossAt close (t + 1 - h + j))).sum / h)
  else none

/-- Column `df["RSI_h"] = 100 - (100 / (1 + gain / loss))` read at row `t`.  A zero
rolling loss makes the float quotient `inf` (positive gain) or `NaN` (zero
gain); the spec treats both as undefined, modelled here as missing. -/
def rsiAt (close : List ℚ) (h t : Nat) : Option ℚ :=
  match rollingGainMean close h t, rollingLossMean close h t with
  | some g, some l => if l = 0 then none else some (100 - 100 / (1 + g / l))
  | _, _ => none

/-- The 9 predictor names appended for one processed horizon `h`, in the order
of the `predictors += [...]` of the source. -/
def ohlcPredictorNames (h : Nat) : List String :=
  ["Close_Ratio_" ++ toString h,
   "Trend_" ++ toString h,
   "Volatility_" ++ toString h,
   "Momentum_" ++ toString h,
   "EMA_" ++ toString h,
   "RSI_" ++ toString h,
   "Bollinger_Upper_" ++ toString h,
   "Bollinger_Lower_" ++ toString h,
   "Cumulative_Return_" ++ toString h]

/-- The predictor-name accumulation of the horizon loop: a horizon is skipped
(`continue`) exactly when `len(df) < horizon`. -/
def ohlcPredictorsAcc (len : Nat) (horizons : List Nat) : List String :=
  horizons.flatMap (fun h => if len < h then [] else ohlcPredictorNames h)

/-- The 9 columns added for one processed horizon `h`, each with the
non-missing (`notna`) pattern of its cells on an `n = close.length` row frame;
the values live in ℝ and are modelled separately where a claim needs them
(`trendAt`, `rsiAt`).  Patterns, from the pandas semantics:
* `Close_Ratio_h`, division by a full-window rolling mean: full window
  (`h ≤ t + 1`); a zero mean gives a float `inf`, which is *not* `NaN`;
* `Trend_h`: full window of the shifted target, `h ≤ t`;
* `Volatility_h` and the Bollinger bands, sample std over the window: full
  window and `2 ≤ h` (the `ddof = 1` std of a single cell is `NaN`);
* `Momentum_h = close - close.shift(h)`: `h ≤ t`;
* `EMA_h`, recursive smoothing: every row;
* `RSI_h`: full window, and not the all-flat window whose gain and loss
  means are both zero (`0/0 = NaN`; a lone zero loss gives `inf`, kept);
* `Cumulative_Return_h`, rolling sum of `pct_change` (missing at row 0):
  `h ≤ t`; assumes nonzero closes, a `0/0` price ratio would be `NaN`. -/
def horizonColsNotna (close target : List ℚ) (h : Nat) :
    List (String × (Nat → Bool)) :=
  [("Close_Ratio_" ++ toString h,
      fun t => decide (t < close.length ∧ 1 ≤ h ∧ h ≤ t + 1)),
   ("Trend_" ++ toString h,
      fun t => decide (t < close.length) && (trendAt target h t).isSome),
   ("Volatility_" ++ toString h,
      fun t => decide (t < close.length ∧ 2 ≤ h ∧ h ≤ t + 1)),
   ("Momentum_" ++ toString h,
      fun t => decide (t < close.length ∧ h ≤ t)),
   ("EMA_" ++ toString h,
      fun t => decide (t < close.length)),
   ("RSI_" ++ toString h,
      fun t => (rollingGainMean close h t).isSome &&
        !(decide (rollingGainMean close h t = some 0) &&
          decide (rollingLossMean close h t = some 0))),
   ("Bollinger_Upper_" ++ toString h,
      fun t => decide (t < close.length ∧ 2 ≤ h ∧ h ≤ t + 1)),
   ("Bollinger_Lower_" ++ toString h,
      fun t => decide (t < close.length ∧ 2 ≤ h ∧ h ≤ t + 1)),
   ("Cumulative_Return_" ++ toString h,
      fun t => decide (t < close.length ∧ 1 ≤ h ∧ h ≤ t))]

/-- All columns added by the horizon loop, skipping a horizon exactly when
`len(df) < horizon`. -/
def ohlcColsNotna (close target : List ℚ) (horizons : List Nat) :
    List (String × (Nat → Bool)) :=
  horizons.flatMap (fun h =>
    if close.length < h then [] else horizonColsNotna close target h)

/-- Rows surviving `df.dropna(subset=predictors, how="all")`: a row is kept
exactly when at least one of the accumulated predictor columns is non-missing
there.  With an empty predictor subset no row has a non-missing subset cell,
so every row is dropped (the pandas `how="all"` mask is `count > 0`). -/
def ohlcKeptRows (close target : List ℚ) (horizons : List Nat) : List Nat :=
  (List.range close.length).filter
    (fun t => (ohlcColsNotna close target horizons).any (fun c => c.2 t))

/-- Model of `create_ohlc_features(df, horizons)` at the frame level: the surviving row
indices and the accumulated predictor names. -/
def create_ohlc_features (close target : List ℚ) (horizons : List Nat) :
    List Nat × List String :=
  (ohlcKeptRows close target horizons, ohlcPredictorsAcc close.length horizons)

/-! ## Macro event aligner (cell e3e29001)

Announcement dates are modelled as day numbers (`ℤ`); the `.dt.days` of a
difference of two same-time timestamps is the difference of day numbers. -/

/-- Unemployment table: `next_announcement_date = date.shift(-1)` and
`days_until_next_announcement = (next_announcement_date - date).dt.days`,
read at row `t`. -/
def unRateDaysUntil (dates : List ℤ) (t : Nat) : Option ℤ :=
  match dates[t + 1]?, dates[t]? with
  | some nxt, some cur => some (nxt - cur)
  | _, _ => none

/-- CPI table: same `shift(-1)` construction as the unemployment table. -/
def cpiDaysUntil (dates : List ℤ) (t : Nat) : Option ℤ :=
  match dates[t + 1]?, dates[t]? with
  | some nxt, some cur => some (nxt - cur)
  | _, _ => none

/-- Fed interest-rate table: `next_announcement_date = date.shift(1)` (the
*previous* row in table order), then the same day-count difference. -/
def fedDaysUntil (dates : List ℤ) (t : Nat) : Option ℤ :=
  if t = 0 then none
  else
    match dates[t - 1]?, dates[t]? with
    | some prv, some cur => some (prv - cur)
    | _, _ => none

/-! ## Calendar feature deriver (cell af77e5f9, `create_calendar_features`)

A date cell is either an unparsed string or an already-parsed timestamp
(calendar date); `pd.to_datetime` leaves timestamps alone and parses strings.
The parser below models `pd.to_datetime` on the ISO `YYYY-MM-DD` strings this
pipeline produces; any other string is a parse failure (`to_datetime`
raises), modelled as `none`. -/

/-- A calendar date, the payload of a parsed pandas timestamp. -/
structure Date where
  y : ℤ
  m : ℤ
  d : ℤ
deriving DecidableEq

/-- A cell of the date column before `pd.to_datetime`. -/
inductive DateVal where
  | str (s : String)
  | dt (d : Date)
deriving DecidableEq

/-- Proleptic-Gregorian leap year. -/
def isLeap (y : ℤ) : Bool := (y % 4 == 0 && y % 100 != 0) || y % 400 == 0

/-- Number of days in month `m` of year `y`. -/
def daysInMonth (y m : ℤ) : ℤ :=
  if m = 2 then (if isLeap y then 29 else 28)
  else if m = 4 ∨ m = 6 ∨ m = 9 ∨ m = 11 then 30
  else 31

/-- Digits-only decimal reading of a character group. -/
def digitsToNat (cs : List Char) : Option Nat :=
  if cs ≠ [] && cs.all Char.isDigit then
    some (cs.foldl (fun a c => a * 10 + (c.toNat - 48)) 0)
  else none

/-- Split a character list on `-` separators. -/
def splitDash : List Char → List (List Char)
  | [] => [[]]
  | c :: cs =>
    let rest := splitDash cs
    if c = '-' then [] :: rest
    else
      match rest with
      | [] => [[c]]
      | g :: gs => (c :: g) :: gs

/-- Parse an ISO `YYYY-MM-DD` string into a calendar date, validating the
month and the day against the month length. -/
def parseIso (s : String) : Option Date :=
  match splitDash s.data with
  | [ys, ms, ds] =>
    match digitsToNat ys, digitsToNat ms, digitsToNat ds with
    | some y, some m, some d =>
      if 1 ≤ m ∧ m ≤ 12 ∧ 1 ≤ d ∧ (d : ℤ) ≤ daysInMonth y m then
        some ⟨(y : ℤ), (m : ℤ), (d : ℤ)⟩
      else none
    | _, _, _ => none
  | _ => none

/-- One cell of `pd.to_datetime(df[date_col])`: a timestamp is returned
unchanged, a string is parsed. -/
def to_datetime : DateVal → Option Date
  | .dt d => some d
  | .str s => parseIso s

/-- Conversion `pd.to_datetime` applied to the whole date column; the conversion raises
(modelled `none`) as soon as one cell fails to parse. -/
def to_datetimeList : List DateVal → Option (List Date)
  | [] => some []
  | x :: xs =>
    match to_datetime x, to_datetimeList xs with
    | some d, some ds => some (d :: ds)
    | _, _ => none

/-- Days since 1970-01-01 of a calendar date (civil-calendar algorithm, floor
divisions). -/
def daysFromCivil (dt : Date) : ℤ :=
  let yy := if dt.m ≤ 2 then dt.y - 1 else dt.y
  let era := yy.fdiv 400
  let yoe := yy - era * 400
  let mp := (dt.m + 9).emod 12
  let doy := (153 * mp + 2).fdiv 5 + dt.d - 1
  let doe := yoe * 365 + yoe.fdiv 4 - yoe.fdiv 100 + doy
  era * 146097 + doe - 719468

/-- Accessor `dt.dayofweek`: Monday = 0 .. Sunday = 6 (1970-01-01 was a Thursday). -/
def pdDayOfWeek (dt : Date) : ℤ := (daysFromCivil dt + 3).emod 7

/-- Ordinal day of the year, 1-based. -/
def dayOfYear (dt : Date) : ℤ :=
  ((List.range (dt.m.toNat - 1)).map (fun i => daysInMonth dt.y (i + 1))).sum
    + dt.d

/-- Number of ISO weeks (52 or 53) in year `y`. -/
def isoWeeksInYear (y : ℤ) : ℤ :=
  let p : ℤ → ℤ := fun yy => (yy + yy.fdiv 4 - yy.fdiv 100 + yy.fdiv 400).emod 7
  if p y = 4 ∨ p (y - 1) = 3 then 53 else 52

/-- Accessor `dt.isocalendar().week`: the ISO-8601 week number. -/
def pdWeekOfYear (dt : Date) : ℤ :=
  let w := (10 + dayOfYear dt - (pdDayOfWeek dt + 1)).fdiv 7
  if w < 1 then isoWeeksInYear (dt.y - 1)
  else if isoWeeksInYear dt.y < w then 1
  else w

/-- Exact symbolic stand-in for the cyclical float features: `sin2pi x` and
`cos2pi x` denote the real numbers `sin (2 * pi * x)` and `cos (2 * pi * x)`,
kept symbolic because the embedding is exact-rational. -/
inductive CycVal where
  | sin2pi (x : ℚ)
  | cos2pi (x : ℚ)
deriving DecidableEq

/-- An input frame for `create_calendar_features`: the date column plus every
other (named, numeric) column, which the function never touches. -/
structure Frame where
  dates : List DateVal
  others : List (String × List ℚ)
deriving DecidableEq

/-- The frame returned by `create_calendar_features`: the (re-parsed) date
column, the untouched other columns, and the 12 added calendar columns. -/
structure CalendarOut where
  dates : List DateVal
  others : List (String × List ℚ)
  day_of_week : List ℤ
  day_of_month : List ℤ
  week_of_year : List ℤ
  month : List ℤ
  year : List ℤ
  quarter : List ℤ
  is_month_end : List ℤ
  is_month_start : List ℤ
  day_of_week_sin : List CycVal
  day_of_week_cos : List CycVal
  month_sin : List CycVal
  month_cos : List CycVal
deriving DecidableEq

/-- The ordered list of the 12 generated feature names returned by
`create_calendar_features`. -/
def calendarPredictorNames : List String :=
  ["day_of_week", "day_of_month", "week_of_year", "month", "year", "quarter",
   "is_month_end", "is_month_start",
   "day_of_week_sin", "day_of_week_cos", "month_sin", "month_cos"]

/-- The output frame built from the parsed date column `ds`:
`df[date_col] = pd.to_datetime(df[date_col])` writes the parsed dates back,
then each calendar column is derived from them. -/
def calendarOutOf (f : Frame) (ds : List Date) : CalendarOut :=
  ⟨ds.map DateVal.dt,
   f.others,
   ds.map pdDayOfWeek,
   ds.map (fun dt => dt.d),
   ds.map pdWeekOfYear,
   ds.map (fun dt => dt.m),
   ds.map (fun dt => dt.y),
   ds.map (fun dt => (dt.m + 2).fdiv 3),
   ds.map (fun dt => if dt.d = daysInMonth dt.y dt.m then 1 else 0),
   ds.map (fun dt => if dt.d = 1 then 1 else 0),
   ds.map (fun dt => CycVal.sin2pi ((pdDayOfWeek dt : ℚ) / 7)),
   ds.map (fun dt => CycVal.cos2pi ((pdDayOfWeek dt : ℚ) / 7)),
   ds.map (fun dt => CycVal.sin2pi ((dt.m : ℚ) / 12)),
   ds.map (fun dt => CycVal.cos2pi ((dt.m : ℚ) / 12))⟩

/-- Model of `create_calendar_features(df, date_col)`: parse the date column in place
(failing if any cell is unparseable), add the 12 calendar columns, and return
the frame with the list of generated feature names. -/
def create_calendar_features (f : Frame) : Option (CalendarOut × List String) :=
  (to_datetimeList f.dates).map (fun ds => (calendarOutOf f ds, calendarPredictorNames))

/-- The row counts of the date column and of each of the 12 added calendar
columns of an output frame, used to state that no rows are dropped. -/
def calendarColumnLengths (o : CalendarOut) : List Nat :=
  [o.dates.length, o.day_of_week.length, o.day_of_month.length,
   o.week_of_year.length, o.month.length, o.year.length, o.quarter.length,
   o.is_month_end.length, o.is_month_start.length, o.day_of_week_sin.length,
   o.day_of_week_cos.length, o.month_sin.length, o.month_cos.length]

/-- A one-row frame whose date cell is an (ISO-parseable) string. -/
def strFrameEx : Frame := ⟨[DateVal.str ("2024-01-03")], [("close", [5])]⟩

/-! ## Helper lemmas for the walk-forward backtester -/

/-- The loop `range(start, n, step)` runs its `k`-th iteration exactly when
the `k`-th fold boundary is below `n`. -/
theorem lt_numFolds_iff (n start step k : Nat) (hstep : 1 ≤ step) :
    k < numFolds n start step ↔ start + k * step < n := by
  unfold numFolds
  rw [Nat.lt_iff_add_one_le, Nat.le_div_iff_mul_le (by omega : 0 < step),
    add_one_mul]
  omega

/-- Membership in the fold boundaries of the backtest loop. -/
theorem mem_foldStarts_iff (n start step i : Nat) (hstep : 1 ≤ step) :
    i ∈ foldStarts n start step ↔
      ∃ k, i = start + k * step ∧ start + k * step < n := by
  unfold foldStarts
  simp only [List.mem_map, List.mem_range]
  constructor
  · rintro ⟨k, hk, rfl⟩
    exact ⟨k, rfl, (lt_numFolds_iff n start step k hstep).mp hk⟩
  · rintro ⟨k, rfl, hlt⟩
    exact ⟨k, (lt_numFolds_iff n start step k hstep).mpr hlt, rfl⟩

/-- Membership in a clamped test slice. -/
theorem mem_testSlice_iff (n step i r : Nat) :
    r ∈ testSlice n step i ↔ min i n ≤ r ∧ r < min (i + step) n := by
  unfold testSlice
  rw [List.mem_range'_1]
  omega

/-! ## Walk-forward backtester: claims C2, C3, C9 -/

/-- C2: for every dataset of `n` rows with `n > start` and every `step ≥ 1`,
the test slices emitted by `backtest` for the fold boundaries
`start, start + step, ...` cover exactly the row range `[start, n)` — every
such row lies in the test slice of some fold — and pairwise disjointly: a row in
two test slices forces the two fold boundaries to coincide. -/
theorem backtest_folds_partition (n start step r : Nat)
    (hstep : 1 ≤ step) (_hn : start < n) :
    ((start ≤ r ∧ r < n) ↔
      ∃ i, i ∈ foldStarts n start step ∧ r ∈ testSlice n step i) ∧
    (∀ i j, i ∈ foldStarts n start step → j ∈ foldStarts n start step →
      r ∈ testSlice n step i → r ∈ testSlice n step j → i = j) := by
  constructor
  · constructor
    · rintro ⟨h1, h2⟩
      obtain ⟨q, a, hqa, hle, hlt⟩ :
          ∃ q a, a = q * step ∧ a ≤ r - start ∧ r - start < a + step := by
        refine ⟨(r - start) / step, (r - start) / step * step, rfl,
          Nat.div_mul_le_self _ _, ?_⟩
        have hd := Nat.div_add_mod (r - start) step
        have hm : (r - start) % step < step := Nat.mod_lt _ (by omega)
        have hc : step * ((r - start) / step) = (r - start) / step * step :=
          Nat.mul_comm _ _
        omega
      refine ⟨start + a, ?_, ?_⟩
      · rw [mem_foldStarts_iff n start step _ hstep]
        refine ⟨q, by rw [hqa], ?_⟩
        rw [← hqa]
        omega
      · rw [mem_testSlice_iff]
        omega
    · rintro ⟨i, hi, hr⟩
      rw [mem_foldStarts_iff n start step i hstep] at hi
      obtain ⟨k, rfl, hlt⟩ := hi
      rw [mem_testSlice_iff] at hr
      omega
  · intro i j hi hj hri hrj
    rw [mem_foldStarts_iff n start step i hstep] at hi
    rw [mem_foldStarts_iff n start step j hstep] at hj
    obtain ⟨k, rfl, hki⟩ := hi
    obtain ⟨l, rfl, hlj⟩ := hj
    rw [mem_testSlice_iff] at hri hrj
    have hkeq : k = l := by
      rcases Nat.lt_trichotomy k l with h | h | h
      · have h2 : (k + 1) * step ≤ l * step := Nat.mul_le_mul_right step h
        have h3 : (k + 1) * step = k * step + step := add_one_mul k step
        omega
      · exact h
      · have h2 : (l + 1) * step ≤ k * step := Nat.mul_le_mul_right step h
        have h3 : (l + 1) * step = l * step + step := add_one_mul l step
        omega
    rw [hkeq]

/-- C2 witness: at `n = 7`, `start = 3`, `step = 2`, row 5. -/
theorem backtest_folds_partition_witness :
    ((3 ≤ 5 ∧ 5 < 7) ↔
      ∃ i, i ∈ foldStarts 7 3 2 ∧ 5 ∈ testSlice 7 2 i) ∧
    (∀ i j, i ∈ foldStarts 7 3 2 → j ∈ foldStarts 7 3 2 →
      5 ∈ testSlice 7 2 i → 5 ∈ testSlice 7 2 j → i = j) :=
  backtest_folds_partition 7 3 2 5 (by decide) (by decide)

/-- C3: in every fold of the backtest, the training slice is exactly the
prefix of rows `[0, i)`, the test slice is `[i, min (i + step) n)`, and every
training row index is strictly below every test row index of the fold. -/
theorem fold_train_precedes_test (n start step i : Nat)
    (hstep : 1 ≤ step) (hi : i ∈ foldStarts n start step) :
    trainSlice n i = List.range i ∧
    testSlice n step i = List.range' i (min (i + step) n - i) ∧
    (∀ a ∈ trainSlice n i, ∀ b ∈ testSlice n step i, a < b) := by
  have hin : i < n := by
    rw [mem_foldStarts_iff n start step i hstep] at hi
    obtain ⟨k, rfl, h⟩ := hi
    exact h
  have hmin : min i n = i := Nat.min_eq_left (Nat.le_of_lt hin)
  refine ⟨by unfold trainSlice; rw [hmin],
    by unfold testSlice; rw [hmin], ?_⟩
  intro a ha b hb
  unfold trainSlice at ha
  rw [List.mem_range] at ha
  rw [mem_testSlice_iff] at hb
  omega

/-- C3 witness: the fold at boundary 5 of `backtest` with `n = 7`,
`start = 3`, `step = 2`. -/
theorem fold_train_precedes_test_witness :
    trainSlice 7 5 = List.range 5 ∧
    testSlice 7 2 5 = List.range' 5 (min (5 + 2) 7 - 5) ∧
    (∀ a ∈ trainSlice 7 5, ∀ b ∈ testSlice 7 2 5, a < b) :=
  fold_train_precedes_test 7 3 2 5 (by decide) (by decide)

/-- C9: on a dataset of `n ≤ start` rows the backtest loop body never runs,
and `pd.concat` of the empty prediction list raises (modelled `none`) instead
of returning an empty prediction table. -/
theorem backtest_no_folds_error (n start step : Nat)
    (hstep : 1 ≤ step) (hn : n ≤ start) :
    foldStarts n start step = [] ∧ backtest n start step = none := by
  have h0 : numFolds n start step = 0 := by
    unfold numFolds
    have he : n - start = 0 := by omega
    rw [he]
    exact Nat.div_eq_of_lt (by omega)
  have h1 : foldStarts n start step = [] := by
    unfold foldStarts
    rw [h0]
    rfl
  refine ⟨h1, ?_⟩
  unfold backtest
  rw [h1]
  rfl

/-- C9 witness: a 5-row dataset with `start = 7`, `step = 2`. -/
theorem backtest_no_folds_error_witness :
    foldStarts 5 7 2 = [] ∧ backtest 5 7 2 = none :=
  backtest_no_folds_error 5 7 2 (by decide) (by decide)

/-! ## Target labeling: claim C1 -/

/-- C1 counterexample: on the two-row close series `[1, 2]` the target of the
final row is the *defined* value 0 — the missing `tomorrow` compares `False` —
and that row lies in the baseline evaluation split `df.iloc[-300:]`, refuting
that the target of the final row is undefined and the row excluded from every
training or evaluation set. -/
theorem target_final_row_defined_cex :
    targetAt [1, 2] 1 = 0 ∧ 1 ∈ baselineTestIdx 2 := by
  exact ⟨rfl, by decide⟩

/-- C1 (amended): for every row with a next day, `target[t] = 1` exactly when
`close[t+1] > close[t]` (and 0 otherwise); at the final row the code assigns
the defined value `target = 0` (the missing next close compares `False`), and
that row is included in the baseline evaluation split rather than excluded. -/
theorem target_labeling (close : List ℚ) (t : Nat) :
    ((h1 : t + 1 < close.length) →
      (targetAt close t = 1 ↔ close[t] < close[t + 1])) ∧
    (t + 1 = close.length →
      targetAt close t = 0 ∧ t ∈ baselineTestIdx close.length) := by
  constructor
  · intro h1
    unfold targetAt tomorrowAt
    rw [List.getElem?_eq_getElem h1,
      List.getElem?_eq_getElem (by omega : t < close.length)]
    show (if close[t] < close[t + 1] then 1 else 0) = 1 ↔
      close[t] < close[t + 1]
    by_cases hc : close[t] < close[t + 1]
    · rw [if_pos hc]
      exact ⟨fun _ => hc, fun _ => rfl⟩
    · rw [if_neg hc]
      exact ⟨fun h0 => absurd h0 (by decide), fun hcc => absurd hcc hc⟩
  · intro h1
    constructor
    · unfold targetAt tomorrowAt
      rw [List.getElem?_eq_none (by omega : close.length ≤ t + 1)]
    · unfold baselineTestIdx
      rw [List.mem_range'_1]
      omega

/-- C1 witness: close series `[1, 2]`, rows 0 and 1. -/
theorem target_labeling_witness :
    (targetAt [1, 2] 0 = 1 ↔ ((1 : ℚ) < 2)) ∧
    (targetAt [1, 2] 1 = 0 ∧ 1 ∈ baselineTestIdx 2) := by
  constructor
  · exact (target_labeling [1, 2] 0).1 (by decide)
  · exact (target_labeling [1, 2] 1).2 (by decide)

/-! ## Technical features: claims C4, C5, C10 -/

/-- C4: `Trend_h` at row `t` never reads `target[t]`: two target columns that
agree everywhere except possibly at row `t` produce the same `Trend_h` cell at
row `t` (the shift-then-roll composition reads only `target[t-h .. t-1]`). -/
theorem trend_ignores_current_target (target1 target2 : List ℚ) (h t : Nat)
    (hag : ∀ j, j ≠ t → target1[j]? = target2[j]?) :
    trendAt target1 h t = trendAt target2 h t := by
  unfold trendAt rollingSumAt
  by_cases hc : t + 1 < h
  · rw [if_pos hc, if_pos hc]
  · rw [if_neg hc, if_neg hc]
    congr 1
    unfold windowCells
    apply List.map_congr_left
    intro j hj
    rw [List.mem_range] at hj
    unfold shiftOneAt
    by_cases h0 : t + 1 - h + j = 0
    · rw [if_pos h0, if_pos h0]
    · rw [if_neg h0, if_neg h0]
      apply hag
      omega

/-- C4 witness: target columns `[0, 1, 0]` and `[0, 1, 1]` differing only at
row 2, horizon 2, row 2. -/
theorem trend_ignores_current_target_witness :
    trendAt [0, 1, 0] 2 2 = trendAt [0, 1, 1] 2 2 :=
  trend_ignores_current_target [0, 1, 0] [0, 1, 1] 2 2 (fun j hj =>
    match j, hj with
    | 0, _ => rfl
    | 1, _ => rfl
    | 2, hj => absurd rfl hj
    | _ + 3, _ => rfl)

/-- C5 counterexample: a series of length 2 with horizon `h = 2` (so
`h ≥ length`) is *processed*, not skipped — the skip condition is
`len(df) < horizon` — so predictors are emitted, refuting that every horizon
`h ≥ length` is skipped. -/
theorem ohlc_skip_boundary_cex : ohlcPredictorsAcc 2 [2] ≠ [] := by
  decide

/-- C5 (amended): the horizon loop silently skips exactly the horizons with
`h >` the series length, and emits the full 9-name predictor block for every
horizon with `h ≤` the series length; the function is total, so the caller
receives a (possibly shorter) predictor list, never a failure. -/
theorem ohlc_horizon_skip (len : Nat) (horizons : List Nat) :
    ohlcPredictorsAcc len horizons =
      (horizons.filter (fun h => decide (h ≤ len))).flatMap ohlcPredictorNames := by
  induction horizons with
  | nil => rfl
  | cons h hs ih =>
    by_cases hc : len < h
    · have h1 : decide (h ≤ len) = false := by
        rw [decide_eq_false_iff_not]
        omega
      simp only [ohlcPredictorsAcc, List.flatMap_cons, List.filter_cons, h1,
        if_pos hc, Bool.false_eq_true, if_false, List.nil_append]
      exact ih
    · have h1 : decide (h ≤ len) = true := by
        rw [decide_eq_true_eq]
        omega
      simp only [ohlcPredictorsAcc, List.flatMap_cons, List.filter_cons, h1,
        if_neg hc, if_true, List.flatMap_cons]
      exact congrArg (fun l => ohlcPredictorNames h ++ l) ih

/-- C10: when every horizon exceeds the series length, `create_ohlc_features`
returns the empty predictor list together with a frame from which *every* row
has been dropped — the final `dropna(subset=[], how="all")` keeps no rows —
and in particular (for a nonempty input) not the input rows unchanged. -/
theorem ohlc_all_horizons_skipped (close target : List ℚ) (horizons : List Nat)
    (hall : ∀ h ∈ horizons, close.length < h) :
    create_ohlc_features close target horizons = ([], []) ∧
    (0 < close.length →
      (create_ohlc_features close target horizons).1 ≠
        List.range close.length) := by
  have hcols : ∀ hs : List Nat, (∀ h ∈ hs, close.length < h) →
      ohlcColsNotna close target hs = [] := by
    intro hs
    induction hs with
    | nil => intro _; rfl
    | cons h tl ih =>
      intro hall2
      unfold ohlcColsNotna
      rw [List.flatMap_cons, if_pos (hall2 h (List.mem_cons_self h tl)),
        List.nil_append]
      have hrec := ih (fun x hx => hall2 x (List.mem_cons_of_mem h hx))
      unfold ohlcColsNotna at hrec
      exact hrec
  have hpred : ∀ hs : List Nat, (∀ h ∈ hs, close.length < h) →
      ohlcPredictorsAcc close.length hs = [] := by
    intro hs
    induction hs with
    | nil => intro _; rfl
    | cons h tl ih =>
      intro hall2
      unfold ohlcPredictorsAcc
      rw [List.flatMap_cons, if_pos (hall2 h (List.mem_cons_self h tl)),
        List.nil_append]
      have hrec := ih (fun x hx => hall2 x (List.mem_cons_of_mem h hx))
      unfold ohlcPredictorsAcc at hrec
      exact hrec
  have hkept : ohlcKeptRows close target horizons = [] := by
    unfold ohlcKeptRows
    rw [hcols horizons hall]
    simp
  have hmain : create_ohlc_features close target horizons = ([], []) := by
    unfold create_ohlc_features
    rw [hkept, hpred horizons hall]
  refine ⟨hmain, fun hn hcon => ?_⟩
  rw [hmain] at hcon
  have h0 : close.length = 0 := List.range_eq_nil.mp hcon.symm
  omega

/-- C10 witness: a 3-row series with horizons `[5, 10]`, both above the
length. -/
theorem ohlc_all_horizons_skipped_witness :
    create_ohlc_features [1, 2, 3] [0, 1, 0] [5, 10] = ([], []) ∧
    (0 < List.length ([1, 2, 3] : List ℚ) →
      (create_ohlc_features [1, 2, 3] [0, 1, 0] [5, 10]).1 ≠
        List.range (List.length ([1, 2, 3] : List ℚ))) :=
  ohlc_all_horizons_skipped [1, 2, 3] [0, 1, 0] [5, 10] (by decide)

/-! ## RSI bounds: claim C6 -/

/-- The clipped positive-delta series is nonnegative at every row. -/
theorem gainAt_nonneg (close : List ℚ) (t : Nat) : 0 ≤ gainAt close t := by
  unfold gainAt
  cases diffAt close t with
  | none => exact le_refl 0
  | some d =>
    dsimp only
    by_cases hd : 0 < d
    · rw [if_pos hd]
      exact le_of_lt hd
    · rw [if_neg hd]

/-- C6: at every row where the rolling mean of losses over the window `h` is
strictly positive, `RSI_h = 100 - 100 / (1 + gain / loss)` is defined and lies
in the closed interval `[0, 100]`. -/
theorem rsi_in_range (close : List ℚ) (h t : Nat) (l : ℚ)
    (hl : rollingLossMean close h t = some l) (hpos : 0 < l) :
    ∃ r, rsiAt close h t = some r ∧ 0 ≤ r ∧ r ≤ 100 := by
  have hcond : 1 ≤ h ∧ t < close.length ∧ h ≤ t + 1 := by
    by_contra hcon
    unfold rollingLossMean at hl
    rw [if_neg hcon] at hl
    exact Option.noConfusion hl
  have hg : rollingGainMean close h t =
      some (((List.range h).map (fun j => gainAt close (t + 1 - h + j))).sum / h) := by
    unfold rollingGainMean
    rw [if_pos hcond]
  set g := ((List.range h).map (fun j => gainAt close (t + 1 - h + j))).sum / (h : ℚ)
    with hgdef
  have hg0 : 0 ≤ g := by
    rw [hgdef]
    apply div_nonneg
    · apply List.sum_nonneg
      intro x hx
      rw [List.mem_map] at hx
      obtain ⟨j, _, rfl⟩ := hx
      exact gainAt_nonneg close (t + 1 - h + j)
    · exact_mod_cast Nat.zero_le h
  have hx : 0 ≤ g / l := div_nonneg hg0 (le_of_lt hpos)
  have h1 : (0 : ℚ) < 1 + g / l := by linarith
  refine ⟨100 - 100 / (1 + g / l), ?_, ?_, ?_⟩
  · unfold rsiAt
    rw [hg, hl]
    show (if l = 0 then none else some (100 - 100 / (1 + g / l))) =
      some (100 - 100 / (1 + g / l))
    rw [if_neg (ne_of_gt hpos)]
  · have h2 : 100 / (1 + g / l) ≤ 100 := div_le_self (by norm_num) (by linarith)
    linarith
  · have h2 : 0 < 100 / (1 + g / l) := div_pos (by norm_num) h1
    linarith

/-- C6 witness: close series `[2, 1, 1]`, horizon 2, row 2 — the rolling loss
mean is `1/2 > 0`. -/
theorem rsi_in_range_witness :
    rollingLossMean [2, 1, 1] 2 2 = some (1 / 2) ∧
    ∃ r, rsiAt [2, 1, 1] 2 2 = some r ∧ 0 ≤ r ∧ r ≤ 100 := by
  have hl : rollingLossMean [2, 1, 1] 2 2 = some (1 / 2) := by
    norm_num [rollingLossMean, lossAt, diffAt,
      show List.range 2 = [0, 1] from rfl]
  exact ⟨hl, rsi_in_range [2, 1, 1] 2 2 (1 / 2) hl (by norm_num)⟩

/-! ## Macro event aligner: claim C7 -/

/-- C7: for the unemployment-rate and CPI tables the day count runs from the
date of each row to the date of the *next* row in table order (undefined at
the last row), while for the Fed interest-rate table it runs from the date of
each row to the date of the *previous* row in table order (undefined at the
first row) — the
adjacency direction is per-series, not unified. -/
theorem macro_days_until_directions (dates : List ℤ) (t : Nat) :
    ((h1 : t + 1 < dates.length) →
      unRateDaysUntil dates t = some (dates[t + 1] - dates[t]) ∧
      cpiDaysUntil dates t = some (dates[t + 1] - dates[t])) ∧
    (t + 1 = dates.length →
      unRateDaysUntil dates t = none ∧ cpiDaysUntil dates t = none) ∧
    (t = 0 → fedDaysUntil dates t = none) ∧
    ((h2 : 0 < t) → (h3 : t < dates.length) →
      fedDaysUntil dates t = some (dates[t - 1] - dates[t])) := by
  refine ⟨?_, ?_, ?_, ?_⟩
  · intro h1
    unfold unRateDaysUntil cpiDaysUntil
    rw [List.getElem?_eq_getElem h1,
      List.getElem?_eq_getElem (by omega : t < dates.length)]
    exact ⟨rfl, rfl⟩
  · intro h1
    unfold unRateDaysUntil cpiDaysUntil
    rw [List.getElem?_eq_none (by omega : dates.length ≤ t + 1)]
    exact ⟨rfl, rfl⟩
  · intro h0
    unfold fedDaysUntil
    rw [if_pos h0]
  · intro h2 h3
    unfold fedDaysUntil
    rw [if_neg (by omega : ¬ t = 0),
      List.getElem?_eq_getElem (by omega : t - 1 < dates.length),
      List.getElem?_eq_getElem h3]

/-- C7 witness: table dates `[10, 17, 30]` (as day numbers), row 1: the
unemployment/CPI gap looks forward (`30 - 17 = 13`), the Fed gap looks to the
previous table row (`10 - 17 = -7`). -/
theorem macro_days_until_directions_witness :
    unRateDaysUntil [10, 17, 30] 1 = some 13 ∧
    fedDaysUntil [10, 17, 30] 1 = some (-7) := by
  constructor
  · have h := (macro_days_until_directions [10, 17, 30] 1).1 (by decide)
    rw [h.1]
    decide
  · have h := (macro_days_until_directions [10, 17, 30] 1).2.2.2
      (by decide) (by decide)
    rw [h]
    decide

/-! ## Calendar feature deriver: claim C8 -/

/-- The in-place `to_datetime` conversion of the date column preserves the
row count. -/
theorem to_datetimeList_length (l : List DateVal) (ds : List Date)
    (h : to_datetimeList l = some ds) : ds.length = l.length := by
  induction l generalizing ds with
  | nil =>
    unfold to_datetimeList at h
    cases h
    rfl
  | cons x xs ih =>
    unfold to_datetimeList at h
    cases hx : to_datetime x with
    | none =>
      rw [hx] at h
      exact Option.noConfusion h
    | some d =>
      rw [hx] at h
      cases hxs : to_datetimeList xs with
      | none =>
        rw [hxs] at h
        exact Option.noConfusion h
      | some ds2 =>
        rw [hxs] at h
        cases h
        simp [ih ds2 hxs]

/-- On a date column that is already datetime throughout, the `to_datetime`
conversion returns the very same column. -/
theorem to_datetimeList_id (l : List DateVal) (ds : List Date)
    (h : to_datetimeList l = some ds)
    (hdt : ∀ x ∈ l, ∃ d0, x = DateVal.dt d0) : ds.map DateVal.dt = l := by
  induction l generalizing ds with
  | nil =>
    unfold to_datetimeList at h
    cases h
    rfl
  | cons x xs ih =>
    obtain ⟨d0, rfl⟩ := hdt x (List.mem_cons_self x xs)
    unfold to_datetimeList at h
    cases hxs : to_datetimeList xs with
    | none =>
      rw [hxs] at h
      exact Option.noConfusion h
    | some ds2 =>
      rw [hxs] at h
      cases h
      have hrec := ih ds2 hxs (fun y hy => hdt y (List.mem_cons_of_mem _ hy))
      simp [hrec]

/-- C8 counterexample: on a one-row frame whose (parseable) date cell is the
string "2024-01-03", the returned date column differs from the input date
column — `create_calendar_features` rewrites the date column in place via
`pd.to_datetime` — refuting that every pre-existing column, the date column
included, is returned with its values unchanged. -/
theorem calendar_mutates_date_column_cex :
    create_calendar_features strFrameEx =
      some (calendarOutOf strFrameEx [⟨2024, 1, 3⟩], calendarPredictorNames) ∧
    (calendarOutOf strFrameEx [⟨2024, 1, 3⟩]).dates ≠ strFrameEx.dates := by
  exact ⟨rfl, by decide⟩

/-- C8 (amended): whenever every date cell parses,
`create_calendar_features` drops no rows (the date column and each of the 12
added calendar columns carry exactly the input row count), adds exactly the
12 calendar predictor columns, and leaves every pre-existing column except
the date column unchanged; the date column itself is replaced by its
`to_datetime` parse, which returns it unchanged exactly when it is already a
datetime column. -/
theorem calendar_frame_effect (f : Frame) (ds : List Date)
    (h : to_datetimeList f.dates = some ds) :
    create_calendar_features f =
      some (calendarOutOf f ds, calendarPredictorNames) ∧
    (calendarOutOf f ds).others = f.others ∧
    calendarColumnLengths (calendarOutOf f ds) =
      List.replicate 13 f.dates.length ∧
    ((∀ x ∈ f.dates, ∃ d0, x = DateVal.dt d0) →
      (calendarOutOf f ds).dates = f.dates) := by
  have hlen : ds.length = f.dates.length := to_datetimeList_length _ _ h
  refine ⟨?_, rfl, ?_, ?_⟩
  · unfold create_calendar_features
    rw [h]
    rfl
  · simp only [calendarColumnLengths, calendarOutOf, List.length_map, hlen]
    rfl
  · intro hdt
    exact to_datetimeList_id _ _ h hdt

/-- C8 witness: the one-row string-dated frame, whose date parses to
2024-01-03. -/
theorem calendar_frame_effect_witness :
    create_calendar_features strFrameEx =
      some (calendarOutOf strFrameEx [⟨2024, 1, 3⟩], calendarPredictorNames) ∧
    (calendarOutOf strFrameEx [⟨2024, 1, 3⟩]).others = strFrameEx.others ∧
    calendarColumnLengths (calendarOutOf strFrameEx [⟨2024, 1, 3⟩]) =
      List.replicate 13 strFrameEx.dates.length ∧
    ((∀ x ∈ strFrameEx.dates, ∃ d0, x = DateVal.dt d0) →
      (calendarOutOf strFrameEx [⟨2024, 1, 3⟩]).dates = strFrameEx.dates) :=
  calendar_frame_effect strFrameEx [⟨2024, 1, 3⟩] rfl

end OptionsTrading
